import Mathlib

/-!
Verification development for a LaTeX editor application.

The embedded components, translated from the TypeScript sources:

* `splitParts` / `scanAux` — the text/math segmenter of the inline preview
  (`processLatex`, regex
  `(\$\$[^$]*\$\$|\\\[[^]*?\\\]|\\\([^]*?\\\)|\$[^$\n]+?\$)` applied with
  `exec` in a loop, pushing the text between matches and the matches
  themselves).  JS regex semantics: positions are tried left to right, and at
  each position the four alternatives are tried in order.  Each alternative is
  deterministic: `[^$]*` is a maximal run of non-dollar characters, the lazy
  bodies `[^]*?` stop at the first occurrence of the closing pair, and
  `[^$\n]+?` is a non-empty run stopped by the first `$` (failing at a
  newline or end of input).
* `escapeHtmlText` / `renderHtml` — the HTML assembly of the same function
  (four sequential global replaces on text parts, KaTeX on math parts,
  abstracted as a function argument).
* `OrchState` / `applyResponse` — the compile orchestrator of
  `Editor.tsx: compileLatex` (fetch response handling: revoke the previous
  object URL, install the new one; on failure set the error and clear both
  the state and the ref).
* `POST` — the compile endpoint of `documentService.ts` (route handler:
  validate content, write the temp `.tex` file, spawn the compiler, read the
  `.pdf`, unlink the scratch files on the success path, JSON responses).
* `compileLatexTrace` — the save-then-compile sequencing of the document
  editor (`part_005: compileLatex`).
* `getDocuments` — the localStorage-backed document listing.
-/

abbrev Chars := List Char

/-- Segment kind: the `type` discriminator of the `MathPart` objects built by
`processLatex` (`'text' | 'math'`). -/
inductive PartKind where
  | text
  | math
deriving DecidableEq, Repr

/-- One element of the `parts` array built by `processLatex`:
`{type: 'text' | 'math', content: string}`. -/
structure MathPart where
  type : PartKind
  content : Chars
deriving DecidableEq, Repr

/-- First occurrence of the two-character closer `a b` in the input:
returns the characters before it and the characters after it.  This is the
semantics of the lazy regex bodies `[^]*?` followed by an escaped closer. -/
def splitCloser (a b : Char) : Chars → Option (Chars × Chars)
  | c :: d :: rest =>
    if c == a && d == b then some ([], rest)
    else
      match splitCloser a b (d :: rest) with
      | some (pre, post) => some (c :: pre, post)
      | none => none
  | _ => none

/-- Alternative 1 of the regex, `\$\$[^$]*\$\$`: `$$`, a maximal run of
non-`$` characters (newlines allowed), then `$$`.  Returns the matched token
and the remaining input. -/
def matchDisplayDollar : Chars → Option (Chars × Chars)
  | '$' :: '$' :: rest =>
    match rest.dropWhile (fun c => !(c == '$')) with
    | '$' :: '$' :: r3 =>
      some ('$' :: '$' :: (rest.takeWhile (fun c => !(c == '$')) ++ ['$', '$']), r3)
    | _ => none
  | _ => none

/-- Alternative 2 of the regex, `\\\[[^]*?\\\]`: `\[`, lazily anything up to
the first `\]`. -/
def matchBracketDisplay : Chars → Option (Chars × Chars)
  | '\\' :: '[' :: rest =>
    match splitCloser '\\' ']' rest with
    | some (pre, post) => some ('\\' :: '[' :: (pre ++ ['\\', ']']), post)
    | none => none
  | _ => none

/-- Alternative 3 of the regex, `\\\([^]*?\\\)`: `\(`, lazily anything up to
the first `\)`. -/
def matchParenInline : Chars → Option (Chars × Chars)
  | '\\' :: '(' :: rest =>
    match splitCloser '\\' ')' rest with
    | some (pre, post) => some ('\\' :: '(' :: (pre ++ ['\\', ')']), post)
    | none => none
  | _ => none

/-- Alternative 4 of the regex, `\$[^$\n]+?\$`: `$`, a non-empty run of
characters that are neither `$` nor a newline, stopped by the first `$`.
A newline before any closing `$` makes the alternative fail. -/
def matchSingleDollar : Chars → Option (Chars × Chars)
  | '$' :: rest =>
    if (rest.takeWhile (fun c => !(c == '$') && !(c == '\n'))).isEmpty then none
    else
      match rest.dropWhile (fun c => !(c == '$') && !(c == '\n')) with
      | '$' :: r2 =>
        some ('$' :: (rest.takeWhile (fun c => !(c == '$') && !(c == '\n')) ++ ['$']), r2)
      | _ => none
  | _ => none

/-- The whole alternation, in the order the regex lists the alternatives
(the JS engine tries them left to right at each position). -/
def matchAt (cs : Chars) : Option (Chars × Chars) :=
  match matchDisplayDollar cs with
  | some r => some r
  | none =>
    match matchBracketDisplay cs with
    | some r => some r
    | none =>
      match matchParenInline cs with
      | some r => some r
      | none => matchSingleDollar cs

/-- The `exec` loop of `processLatex`: scan the input left to right; at the
first position where the regex matches, flush the accumulated plain text
(when non-empty, mirroring `match.index > lastIndex`), emit the math token
and continue after it; at the end flush the remaining text (mirroring
`lastIndex < code.length`).  The fuel argument only bounds the recursion:
each step consumes at least one input character, so `fuel = input length`
(as used by `splitParts`) never runs out. -/
def scanAux : Nat → Chars → Chars → List MathPart
  | _, acc, [] => if acc.isEmpty then [] else [⟨PartKind.text, acc⟩]
  | 0, acc, c :: cs => [⟨PartKind.text, acc ++ c :: cs⟩]
  | fuel + 1, acc, c :: cs =>
    match matchAt (c :: cs) with
    | some (tok, rest) =>
      (if acc.isEmpty then [] else [⟨PartKind.text, acc⟩])
        ++ ⟨PartKind.math, tok⟩ :: scanAux fuel [] rest
    | none => scanAux fuel (acc ++ [c]) cs

/-- The `parts` array `processLatex` builds for a given input. -/
def splitParts (code : Chars) : List MathPart :=
  scanAux code.length [] code

theorem splitCloser_eq (a b : Char) :
    ∀ cs pre post, splitCloser a b cs = some (pre, post) →
      cs = pre ++ a :: b :: post := by
  intro cs
  induction cs with
  | nil => intro pre post h; simp [splitCloser] at h
  | cons c rest ih =>
    cases rest with
    | nil => intro pre post h; simp [splitCloser] at h
    | cons d rest2 =>
      intro pre post h
      rw [splitCloser] at h
      by_cases hab : (c == a && d == b) = true
      · rw [if_pos hab] at h
        obtain ⟨ha, hb⟩ := Bool.and_eq_true_iff.mp hab
        cases h
        simp [beq_iff_eq.mp ha, beq_iff_eq.mp hb]
      · rw [if_neg hab] at h
        cases hsp : splitCloser a b (d :: rest2) with
        | none => rw [hsp] at h; cases h
        | some pr =>
          obtain ⟨pre2, post2⟩ := pr
          rw [hsp] at h
          simp only [Option.some.injEq, Prod.mk.injEq] at h
          obtain ⟨h1, h2⟩ := h
          subst h1
          subst h2
          have := ih pre2 post2 hsp
          simp [this]

/-- Shape of every math token the regex can produce: one of the four
delimited forms.  For `$$...$$` the body contains no `$`; for `$...$` the
body is non-empty and contains neither `$` nor a newline (the regex class
`[^$\n]+`), so single-dollar math never spans a line break. -/
def wellDelimitedMath (tok : Chars) : Prop :=
  (∃ mid, tok = '$' :: '$' :: (mid ++ ['$', '$']) ∧ ∀ x ∈ mid, x ≠ '$') ∨
  (∃ mid, tok = '\\' :: '[' :: (mid ++ ['\\', ']'])) ∨
  (∃ mid, tok = '\\' :: '(' :: (mid ++ ['\\', ')'])) ∨
  (∃ mid, tok = '$' :: (mid ++ ['$']) ∧ mid ≠ [] ∧ ∀ x ∈ mid, x ≠ '$' ∧ x ≠ '\n')

theorem matchDisplayDollar_spec (cs tok rest : Chars)
    (h : matchDisplayDollar cs = some (tok, rest)) :
    cs = tok ++ rest ∧ wellDelimitedMath tok := by
  rw [matchDisplayDollar.eq_def] at h
  split at h
  · rename_i r
    split at h
    · rename_i r3 hd
      simp only [Option.some.injEq, Prod.mk.injEq] at h
      obtain ⟨htok, hrest⟩ := h
      subst htok
      subst hrest
      have hta := List.takeWhile_append_dropWhile (fun c => !(c == '$')) r
      rw [hd] at hta
      set t := r.takeWhile (fun c => !(c == '$')) with ht
      constructor
      · rw [← hta]
        simp
      · refine Or.inl ⟨t, rfl, fun x hx => ?_⟩
        rw [ht] at hx
        simpa using List.mem_takeWhile_imp hx
    · exact absurd h (by simp)
  · exact absurd h (by simp)

theorem matchBracketDisplay_spec (cs tok rest : Chars)
    (h : matchBracketDisplay cs = some (tok, rest)) :
    cs = tok ++ rest ∧ wellDelimitedMath tok := by
  rw [matchBracketDisplay.eq_def] at h
  split at h
  · rename_i r
    split at h
    · rename_i pre post hsp
      simp only [Option.some.injEq, Prod.mk.injEq] at h
      obtain ⟨htok, hrest⟩ := h
      subst htok
      subst hrest
      have := splitCloser_eq '\\' ']' r pre post hsp
      constructor
      · simp [this]
      · exact Or.inr (Or.inl ⟨pre, rfl⟩)
    · exact absurd h (by simp)
  · exact absurd h (by simp)

theorem matchParenInline_spec (cs tok rest : Chars)
    (h : matchParenInline cs = some (tok, rest)) :
    cs = tok ++ rest ∧ wellDelimitedMath tok := by
  rw [matchParenInline.eq_def] at h
  split at h
  · rename_i r
    split at h
    · rename_i pre post hsp
      simp only [Option.some.injEq, Prod.mk.injEq] at h
      obtain ⟨htok, hrest⟩ := h
      subst htok
      subst hrest
      have := splitCloser_eq '\\' ')' r pre post hsp
      constructor
      · simp [this]
      · exact Or.inr (Or.inr (Or.inl ⟨pre, rfl⟩))
    · exact absurd h (by simp)
  · exact absurd h (by simp)

theorem matchSingleDollar_spec (cs tok rest : Chars)
    (h : matchSingleDollar cs = some (tok, rest)) :
    cs = tok ++ rest ∧ wellDelimitedMath tok := by
  rw [matchSingleDollar.eq_def] at h
  split at h
  · rename_i r
    split at h
    · exact absurd h (by simp)
    · rename_i hne
      split at h
      · rename_i r2 hd
        simp only [Option.some.injEq, Prod.mk.injEq] at h
        obtain ⟨htok, hrest⟩ := h
        subst htok
        subst hrest
        have hta :=
          List.takeWhile_append_dropWhile (fun c => !(c == '$') && !(c == '\n')) r
        rw [hd] at hta
        set t := r.takeWhile (fun c => !(c == '$') && !(c == '\n')) with ht
        constructor
        · rw [← hta]
          simp
        · refine Or.inr (Or.inr (Or.inr ⟨t, rfl, ?_, ?_⟩))
          · intro hnil
            exact hne (by simp [hnil])
          · intro x hx
            rw [ht] at hx
            have := List.mem_takeWhile_imp hx
            simp only [Bool.and_eq_true, Bool.not_eq_true'] at this
            exact ⟨by simpa using this.1, by simpa using this.2⟩
      · exact absurd h (by simp)
  · exact absurd h (by simp)

theorem matchAt_spec (cs tok rest : Chars) (h : matchAt cs = some (tok, rest)) :
    cs = tok ++ rest ∧ wellDelimitedMath tok := by
  unfold matchAt at h
  split at h
  · rename_i h1
    cases h
    exact matchDisplayDollar_spec _ _ _ h1
  · split at h
    · rename_i h2
      cases h
      exact matchBracketDisplay_spec _ _ _ h2
    · split at h
      · rename_i h3
        cases h
        exact matchParenInline_spec _ _ _ h3
      · exact matchSingleDollar_spec _ _ _ h

theorem scanAux_content (fuel : Nat) :
    ∀ acc cs, ((scanAux fuel acc cs).map MathPart.content).flatten = acc ++ cs := by
  induction fuel with
  | zero =>
    intro acc cs
    cases cs with
    | nil =>
      simp only [scanAux]
      split
      · rename_i hacc
        simp [List.isEmpty_iff.mp hacc]
      · simp
    | cons c cs2 => simp [scanAux]
  | succ fuel ih =>
    intro acc cs
    cases cs with
    | nil =>
      simp only [scanAux]
      split
      · rename_i hacc
        simp [List.isEmpty_iff.mp hacc]
      · simp
    | cons c cs2 =>
      simp only [scanAux]
      cases hm : matchAt (c :: cs2) with
      | some pr =>
        obtain ⟨tok, rest⟩ := pr
        have hsp := (matchAt_spec _ _ _ hm).1
        simp only [List.map_append, List.map_cons, List.flatten_append,
          List.flatten_cons, ih]
        split
        · rename_i hacc
          simp [List.isEmpty_iff.mp hacc, ← hsp]
        · simp [← hsp]
      | none =>
        simp [ih]

theorem scanAux_math_shape (fuel : Nat) :
    ∀ acc cs p, p ∈ scanAux fuel acc cs → p.type = PartKind.math →
      wellDelimitedMath p.content := by
  induction fuel with
  | zero =>
    intro acc cs p hp ht
    cases cs with
    | nil =>
      simp only [scanAux] at hp
      split at hp <;> simp_all
    | cons c cs2 =>
      simp only [scanAux] at hp
      simp_all
  | succ fuel ih =>
    intro acc cs p hp ht
    cases cs with
    | nil =>
      simp only [scanAux] at hp
      split at hp <;> simp_all
    | cons c cs2 =>
      simp only [scanAux] at hp
      cases hm : matchAt (c :: cs2) with
      | some pr =>
        obtain ⟨tok, rest⟩ := pr
        rw [hm] at hp
        simp only [List.mem_append, List.mem_cons] at hp
        rcases hp with hp | hp | hp
        · split at hp <;> simp_all
        · subst hp
          exact (matchAt_spec _ _ _ hm).2
        · exact ih [] rest p hp ht
      | none =>
        rw [hm] at hp
        exact ih (acc ++ [c]) cs2 p hp ht

/-- Claim C2: for every input string, concatenating the `content` fields of
all segments produced by the text/math segmenter, in output order, yields
exactly the original input (lossless partition). -/
theorem C2_lossless_partition (code : Chars) :
    ((splitParts code).map MathPart.content).flatten = code := by
  simpa using scanAux_content code.length [] code

example : splitParts ("a $x^2$ b".toList) =
    [⟨PartKind.text, "a ".toList⟩, ⟨PartKind.math, "$x^2$".toList⟩,
     ⟨PartKind.text, " b".toList⟩] := by decide

example : splitParts ("$$x$$".toList) = [⟨PartKind.math, "$$x$$".toList⟩] := by decide

example : splitParts ("a $y".toList) = [⟨PartKind.text, "a $y".toList⟩] := by decide

example : splitParts ("$a\n$$x$$".toList) =
    [⟨PartKind.text, "$a\n".toList⟩, ⟨PartKind.math, "$$x$$".toList⟩] := by decide

/-- Claim C8, as stated, is false on the code: in the input `"$a\n$$x$$"` the
leading `$` is unterminated (a line break follows it before any closing
`$`), yet the remainder after that `$` is not classified as plain text — the
scanner resumes matching and produces the math segment `$$x$$`.  The plain
text extends only to the next successfully matched delimiter, not to the end
of the input. -/
theorem C8_counterexample :
    splitParts ("$a\n$$x$$".toList) =
      [⟨PartKind.text, "$a\n".toList⟩, ⟨PartKind.math, "$$x$$".toList⟩]
    ∧ ¬(∀ p ∈ splitParts ("$a\n$$x$$".toList), p.type = PartKind.text) := by
  decide

/-- Claim C8 (amended): an unterminated single-dollar delimiter is treated as
plain text up to the next successfully matched delimiter (or the end of the
input, if none matches): every segment the segmenter classifies as math is
one of the four well-delimited forms (`wellDelimitedMath`), so no math
segment starts at an unterminated `$` and single-`$` math never contains a
line break; by `C2_lossless_partition` no character is dropped.  In
particular, for the spec's example input `"a $y"` (no closing `$` before the
end of input) the entire remainder is one text segment. -/
theorem C8_unterminated_dollar :
    (∀ code p, p ∈ splitParts code → p.type = PartKind.math →
      wellDelimitedMath p.content)
    ∧ splitParts ("a $y".toList) = [⟨PartKind.text, "a $y".toList⟩] := by
  constructor
  · intro code p hp ht
    exact scanAux_math_shape code.length [] code p hp ht
  · decide

/-- Witness for `C8_unterminated_dollar` at a concrete input: the math
segment `$x^2$` of `"a $x^2$ b"` is well delimited. -/
theorem C8_unterminated_dollar_witness :
    ((⟨PartKind.math, "$x^2$".toList⟩ : MathPart) ∈ splitParts ("a $x^2$ b".toList))
    ∧ wellDelimitedMath ("$x^2$".toList) :=
  ⟨by decide,
    C8_unterminated_dollar.1 ("a $x^2$ b".toList) ⟨PartKind.math, "$x^2$".toList⟩
      (by decide) rfl⟩

/-- Per-character HTML escaping: the combined effect of the four sequential
global replaces of the text branch of `processLatex`. -/
def escChar (c : Char) : Chars :=
  if c = '&' then "&amp;".toList
  else if c = '<' then "&lt;".toList
  else if c = '>' then "&gt;".toList
  else if c = '\n' then "<br>".toList
  else [c]

/-- `s.replace(/X/g, rep)` for a single-character pattern `X`: every
occurrence of `c` becomes `rep`, every other character is kept. -/
def replaceAllChar (c : Char) (rep : Chars) (s : Chars) : Chars :=
  (s.map (fun x => if x = c then rep else [x])).flatten

/-- The text branch of `processLatex`:
`content.replace(/&/g,'&amp;').replace(/</g,'&lt;').replace(/>/g,'&gt;').replace(/\n/g,'<br>')`,
the four replaces applied in the source's order. -/
def escapeHtmlText (s : Chars) : Chars :=
  replaceAllChar '\n' ("<br>".toList)
    (replaceAllChar '>' ("&gt;".toList)
      (replaceAllChar '<' ("&lt;".toList)
        (replaceAllChar '&' ("&amp;".toList) s)))

/-- One iteration of the `for (const part of parts)` loop of `processLatex`:
text parts are HTML-escaped, math parts go through the KaTeX rendering
branch, which is external and abstracted as `katexRender`. -/
def renderPart (katexRender : MathPart → Chars) (p : MathPart) : Chars :=
  if p.type = PartKind.text then escapeHtmlText p.content else katexRender p

/-- The `html` accumulator of `processLatex`: starts empty, appends the
rendering of each part in order. -/
def renderHtml (katexRender : MathPart → Chars) (code : Chars) : Chars :=
  (splitParts code).foldl (fun html p => html ++ renderPart katexRender p) []

theorem replaceAllChar_append (c : Char) (rep a b : Chars) :
    replaceAllChar c rep (a ++ b) = replaceAllChar c rep a ++ replaceAllChar c rep b := by
  simp [replaceAllChar]

theorem escapeHtmlText_append (a b : Chars) :
    escapeHtmlText (a ++ b) = escapeHtmlText a ++ escapeHtmlText b := by
  simp [escapeHtmlText, replaceAllChar_append]

theorem escapeHtmlText_singleton (c : Char) : escapeHtmlText [c] = escChar c := by
  by_cases h1 : c = '&'
  · subst h1; decide
  by_cases h2 : c = '<'
  · subst h2; decide
  by_cases h3 : c = '>'
  · subst h3; decide
  by_cases h4 : c = '\n'
  · subst h4; decide
  simp [escapeHtmlText, replaceAllChar, escChar, h1, h2, h3, h4]

/-- The four sequential replaces equal one per-character escaping pass: no
entity introduced by an earlier replace is re-escaped by a later one. -/
theorem escapeHtmlText_eq_escChar (s : Chars) :
    escapeHtmlText s = (s.map escChar).flatten := by
  induction s with
  | nil => rfl
  | cons c t ih =>
    have h : (c :: t : Chars) = [c] ++ t := rfl
    rw [h, escapeHtmlText_append, escapeHtmlText_singleton, ih]
    simp

theorem renderHtml_foldl (k : MathPart → Chars) (l : List MathPart) :
    ∀ init : Chars,
      l.foldl (fun html p => html ++ renderPart k p) init =
        init ++ (l.map (renderPart k)).flatten := by
  induction l with
  | nil => intro init; simp
  | cons p t ih => intro init; simp [ih]

/-- Claim C10: for every input and every (abstract) math renderer, the
generated preview HTML is the in-order concatenation of the per-part
renderings, and the contribution of every plain-text segment is its
HTML-escaped form: each `&`, `<`, `>` of the segment replaced by its entity
and each newline by a `<br>` tag (`escChar`), so characters of text segments
never reach the HTML output unescaped. -/
theorem C10_text_segments_escaped (k : MathPart → Chars) (code : Chars) :
    renderHtml k code = ((splitParts code).map (renderPart k)).flatten
    ∧ (∀ p ∈ splitParts code, p.type = PartKind.text →
        renderPart k p = (p.content.map escChar).flatten) := by
  constructor
  · simpa using renderHtml_foldl k (splitParts code) []
  · intro p hp ht
    simp [renderPart, ht, escapeHtmlText_eq_escChar]

/-- Witness for `C10_text_segments_escaped`: the text segment of the input
`"a <b\n"` is escaped to `"a &lt;b<br>"`. -/
theorem C10_text_segments_escaped_witness :
    ((⟨PartKind.text, "a <b\n".toList⟩ : MathPart) ∈ splitParts ("a <b\n".toList))
    ∧ renderPart (fun _ => []) ⟨PartKind.text, "a <b\n".toList⟩ =
        (("a <b\n".toList).map escChar).flatten
    ∧ renderPart (fun _ => []) ⟨PartKind.text, "a <b\n".toList⟩ = "a &lt;b<br>".toList :=
  ⟨by decide,
    (C10_text_segments_escaped (fun _ => []) ("a <b\n".toList)).2 _ (by decide) rfl,
    by decide⟩

/-- Resolution of one `/api/compile` fetch issued by `Editor.tsx:
compileLatex`.  `seq` is the sequence number the specification assigns to the
request (the code itself keeps no such number); `ok` carries the decoded
response bytes, `fail` the surfaced error message. -/
inductive CompileOutcome where
  | ok (seq : Nat) (bytes : Nat)
  | fail (seq : Nat) (msg : String)
deriving DecidableEq, Repr

/-- The React state of the `Editor` component that the compile path touches.
An object URL is modelled as a pair `(id, bytes)`: `id` is the fresh
identity `URL.createObjectURL` mints, `bytes` the blob contents.  `revoked`
records every URL passed to `URL.revokeObjectURL`. -/
structure OrchState where
  pdfUrl : Option (Nat × Nat)
  pdfUrlRef : Option (Nat × Nat)
  error : Option String
  isCompiling : Bool
  revoked : List (Nat × Nat)
  nextUrlId : Nat
deriving DecidableEq, Repr

/-- Start of `compileLatex` (lines 69–70): `setIsCompiling(true);
setError(null)`. -/
def issueRequest (st : OrchState) : OrchState :=
  { st with isCompiling := true, error := none }

/-- Resolution handler of `compileLatex` (lines 81–111).  Success: revoke the
previous URL if the ref holds one, create the new object URL, store it in
both the ref and the state.  Failure (`catch`): set the error, clear both
the state URL and the ref — without revoking anything.  `finally`:
`setIsCompiling(false)`.  The sequence number of the resolving request is
never consulted. -/
def applyResponse (st : OrchState) (o : CompileOutcome) : OrchState :=
  match o with
  | CompileOutcome.ok _ b =>
    let rv := match st.pdfUrlRef with
      | some u => u :: st.revoked
      | none => st.revoked
    let u := (st.nextUrlId, b)
    { pdfUrl := some u, pdfUrlRef := some u, error := st.error,
      isCompiling := false, revoked := rv, nextUrlId := st.nextUrlId + 1 }
  | CompileOutcome.fail _ m =>
    { pdfUrl := none, pdfUrlRef := none, error := some m,
      isCompiling := false, revoked := st.revoked, nextUrlId := st.nextUrlId }

/-- Component mount: no URL, no error, nothing compiling. -/
def initState : OrchState :=
  ⟨none, none, none, false, [], 0⟩

/-- Apply the resolutions of in-flight requests in their wall-clock
completion order. -/
def applyAll (st : OrchState) (rs : List CompileOutcome) : OrchState :=
  rs.foldl applyResponse st

/-- Claim C1, as stated, is false on the code: two overlapping requests,
sequence numbers 1 (bytes 11) and 2 (bytes 22); request 2 resolves first,
then the stale request 1.  `compileLatex` installs whichever response
arrives last — it keeps no sequence numbers — so the published result is
request 1's artifact (bytes 11), not request 2's, and the stale result has
overwritten the newer one. -/
theorem C1_counterexample :
    (applyAll (issueRequest (issueRequest initState))
        [CompileOutcome.ok 2 22, CompileOutcome.ok 1 11]).pdfUrl.map Prod.snd
      = some 11
    ∧ ¬((applyAll (issueRequest (issueRequest initState))
        [CompileOutcome.ok 2 22, CompileOutcome.ok 1 11]).pdfUrl.map Prod.snd
      = some 22) := by
  decide

/-- Claim C1 (amended): the published state after all requests resolve is the
result of the request whose response is processed last, regardless of
sequence numbers: a later-arriving success installs its artifact bytes as
the published object URL, and a later-arriving failure clears the published
URL and installs its error message — in both cases overwriting any
higher-numbered result that arrived earlier. -/
theorem C1_last_arrival_wins (st : OrchState) (rs : List CompileOutcome)
    (s b : Nat) (m : String) :
    (applyAll st (rs ++ [CompileOutcome.ok s b])).pdfUrl.map Prod.snd = some b
    ∧ (applyAll st (rs ++ [CompileOutcome.fail s m])).pdfUrl = none
    ∧ (applyAll st (rs ++ [CompileOutcome.fail s m])).error = some m := by
  refine ⟨?_, ?_, ?_⟩ <;>
    simp [applyAll, List.foldl_append, applyResponse]

/-- Claim C3, as stated, is false on the code: after a successful compile
(bytes 5, published as object URL `(0, 5)`), a failing compile runs the
`catch` block of `compileLatex`, which does `setError(...)`,
`setPdfUrl('')`, `pdfUrlRef.current = ''` — the error text is published but
the last-good artifact is discarded from the editor state (`pdfUrl` is
cleared), so both are not available at the point of failure. -/
theorem C3_counterexample :
    (applyResponse
        (issueRequest (applyResponse (issueRequest initState) (CompileOutcome.ok 1 5)))
        (CompileOutcome.fail 2 "Failed to compile LaTeX")).error
      = some "Failed to compile LaTeX"
    ∧ (applyResponse
        (issueRequest (applyResponse (issueRequest initState) (CompileOutcome.ok 1 5)))
        (CompileOutcome.fail 2 "Failed to compile LaTeX")).pdfUrl
      = none := by
  constructor <;> rfl

/-- Claim C3 (amended): a failure publishes the error text but clears the
published artifact reference, so the last-good artifact is no longer
available; the underlying resource (the object URL) is nevertheless not
revoked on the failure path — and because the ref was cleared, a subsequent
Success does not revoke it either (the URL is orphaned rather than
released). -/
theorem C3_failure_clears_artifact (st : OrchState) (s1 s2 s3 b b2 : Nat)
    (m : String) :
    (applyResponse (issueRequest (applyResponse (issueRequest st)
        (CompileOutcome.ok s1 b))) (CompileOutcome.fail s2 m)).error = some m
    ∧ (applyResponse (issueRequest (applyResponse (issueRequest st)
        (CompileOutcome.ok s1 b))) (CompileOutcome.fail s2 m)).pdfUrl = none
    ∧ (applyResponse (issueRequest (applyResponse (issueRequest st)
        (CompileOutcome.ok s1 b))) (CompileOutcome.fail s2 m)).pdfUrlRef = none
    ∧ (applyResponse (issueRequest (applyResponse (issueRequest st)
        (CompileOutcome.ok s1 b))) (CompileOutcome.fail s2 m)).revoked
        = (applyResponse (issueRequest st) (CompileOutcome.ok s1 b)).revoked
    ∧ (applyResponse (applyResponse (issueRequest (applyResponse (issueRequest st)
        (CompileOutcome.ok s1 b))) (CompileOutcome.fail s2 m))
        (CompileOutcome.ok s3 b2)).revoked
        = (applyResponse (issueRequest st) (CompileOutcome.ok s1 b)).revoked := by
  refine ⟨rfl, rfl, rfl, rfl, ?_⟩
  simp [applyResponse, issueRequest]

/-- The scratch files of one compile request: the temp `.tex` source the
adapter writes, and the `.pdf`, `.log` and `.aux` files the external
`pdflatex` run can generate next to it. -/
inductive TmpFile where
  | tex
  | pdf
  | log
  | aux
deriving DecidableEq, Repr

/-- Result of `await request.json()` followed by destructuring `content`:
either the body fails to parse (the thrown message reaches the outer catch)
or it yields an optional `content` string. -/
inductive ReqParse where
  | failed (msg : String)
  | parsed (content : Option String)
deriving DecidableEq, Repr

/-- Environment of one run of the external tool and the filesystem, the
collaborators of the route handler: the `pdflatex` exit code and streams,
the outcome of reading the output `.pdf` (`Except.error` is the thrown fs
error message), and the side files the tool run leaves in the scratch
directory. -/
structure ToolEnv where
  exitCode : Nat
  errorOutput : String
  stdOutput : String
  readPdf : Except String (List Nat)
  toolFiles : List TmpFile
deriving Repr

/-- The JSON body of a `NextResponse.json` call in the route handler:
either `{ pdf: <base64 string> }` (the artifact field) or
`{ error: <message> }`. -/
inductive RespBody where
  | pdf (b64 : String)
  | error (msg : String)
deriving DecidableEq, Repr

/-- An HTTP response of the route handler. -/
structure HttpResponse where
  status : Nat
  body : RespBody
deriving DecidableEq, Repr

/-- Filesystem/process effects of one request to the compile endpoint:
which scratch files came into existence, whether the external tool was
spawned, and which files were passed to `unlink`. -/
structure Effects where
  filesCreated : List TmpFile
  toolInvoked : Bool
  filesRemoved : List TmpFile
deriving DecidableEq, Repr

/-- The `POST` handler of `/api/compile` (`documentService.ts` lines
169–244), with base64 encoding (`Buffer.toString('base64')`) abstracted as
`b64`.  Control flow from the source: a body-parse failure reaches the outer
catch (status 500); empty/missing `content` is rejected with status 400
before any file is written or the tool spawned; otherwise the temp `.tex`
is written and `pdflatex` spawned; a non-zero exit rejects with
`LaTeX compilation failed: ${errorOutput || output}` (status 500, no
cleanup); a failing artifact read rejects with the fs error (status 500, no
cleanup); on success the four scratch files are unlinked and the response is
`{ pdf: <base64> }` with status 200. -/
def POST (b64 : List Nat → String) (req : ReqParse) (env : ToolEnv) :
    HttpResponse × Effects :=
  match req with
  | ReqParse.failed m => (⟨500, RespBody.error m⟩, ⟨[], false, []⟩)
  | ReqParse.parsed none => (⟨400, RespBody.error "No content provided"⟩, ⟨[], false, []⟩)
  | ReqParse.parsed (some c) =>
    if c = "" then (⟨400, RespBody.error "No content provided"⟩, ⟨[], false, []⟩)
    else if env.exitCode ≠ 0 then
      (⟨500, RespBody.error ("LaTeX compilation failed: "
          ++ (if env.errorOutput = "" then env.stdOutput else env.errorOutput))⟩,
       ⟨TmpFile.tex :: env.toolFiles, true, []⟩)
    else
      match env.readPdf with
      | Except.error m =>
        (⟨500, RespBody.error m⟩, ⟨TmpFile.tex :: env.toolFiles, true, []⟩)
      | Except.ok bytes =>
        (⟨200, RespBody.pdf (b64 bytes)⟩,
         ⟨TmpFile.tex :: env.toolFiles, true,
          [TmpFile.tex, TmpFile.pdf, TmpFile.log, TmpFile.aux]⟩)

/-- Claim C5: for every compile request the external tool completes
successfully (exit code 0, artifact readable), the endpoint responds with
status 200 and a body whose artifact field carries the base64-encoded output
bytes (`{ pdf: b64 bytes }`); on failure — non-zero exit or artifact read
failure — it responds with status 500 (not a 2xx status) and a body holding
an error string. -/
theorem C5_response_shape (b64 : List Nat → String) (c : String) (env : ToolEnv)
    (hc : c ≠ "") :
    (∀ bytes, env.exitCode = 0 → env.readPdf = Except.ok bytes →
      (POST b64 (ReqParse.parsed (some c)) env).1 = ⟨200, RespBody.pdf (b64 bytes)⟩)
    ∧ (env.exitCode ≠ 0 →
      (POST b64 (ReqParse.parsed (some c)) env).1.status = 500
      ∧ ¬(200 ≤ (POST b64 (ReqParse.parsed (some c)) env).1.status
          ∧ (POST b64 (ReqParse.parsed (some c)) env).1.status ≤ 299)
      ∧ ∃ m, (POST b64 (ReqParse.parsed (some c)) env).1.body = RespBody.error m)
    ∧ (∀ m, env.exitCode = 0 → env.readPdf = Except.error m →
      (POST b64 (ReqParse.parsed (some c)) env).1.status = 500
      ∧ (POST b64 (ReqParse.parsed (some c)) env).1.body = RespBody.error m) := by
  refine ⟨?_, ?_, ?_⟩
  · intro bytes h0 hr
    simp [POST, hc, h0, hr]
  · intro h0
    have hs : (POST b64 (ReqParse.parsed (some c)) env).1.status = 500 := by
      simp [POST, hc, h0]
    refine ⟨hs, ?_, ?_⟩
    · rw [hs]
      omega
    · simp [POST, hc, h0]
  · intro m h0 hr
    constructor <;> simp [POST, hc, h0, hr]

/-- Witness for `C5_response_shape`: a concrete successful run returns
status 200 with the base64 artifact, and a concrete failing run returns
status 500 with an error body. -/
theorem C5_response_shape_witness :
    ("x" ≠ "" ∧ (ToolEnv.mk 0 "" "" (Except.ok [1, 2]) [TmpFile.log]).exitCode = 0)
    ∧ (POST (fun _ => "AQI=") (ReqParse.parsed (some "x"))
        (ToolEnv.mk 0 "" "" (Except.ok [1, 2]) [TmpFile.log])).1
      = ⟨200, RespBody.pdf "AQI="⟩ :=
  ⟨⟨by decide, rfl⟩,
    (C5_response_shape (fun _ => "AQI=") "x"
        (ToolEnv.mk 0 "" "" (Except.ok [1, 2]) [TmpFile.log]) (by decide)).1
      [1, 2] rfl rfl⟩

/-- Claim C7: a request whose `content` field is missing or empty is rejected
with status 400 (not a 2xx status) and an error body, without spawning the
external compiler and without creating any scratch file. -/
theorem C7_reject_empty_content (b64 : List Nat → String) (env : ToolEnv)
    (req : ReqParse)
    (h : req = ReqParse.parsed none ∨ req = ReqParse.parsed (some "")) :
    (POST b64 req env).1.status = 400
    ∧ ¬(200 ≤ (POST b64 req env).1.status ∧ (POST b64 req env).1.status ≤ 299)
    ∧ (∃ m, (POST b64 req env).1.body = RespBody.error m)
    ∧ (POST b64 req env).2.toolInvoked = false
    ∧ (POST b64 req env).2.filesCreated = [] := by
  rcases h with h | h <;> subst h <;>
    exact ⟨rfl, fun hcon => absurd (show (400 : Nat) ≤ 299 from hcon.2) (by omega),
      ⟨"No content provided", rfl⟩, rfl, rfl⟩

/-- Witness for `C7_reject_empty_content` at a concrete request with empty
content. -/
theorem C7_reject_empty_content_witness :
    (POST (fun _ => "") (ReqParse.parsed (some ""))
        (ToolEnv.mk 0 "" "" (Except.ok []) [])).1.status = 400
    ∧ (POST (fun _ => "") (ReqParse.parsed (some ""))
        (ToolEnv.mk 0 "" "" (Except.ok []) [])).2.toolInvoked = false :=
  ⟨(C7_reject_empty_content (fun _ => "") (ToolEnv.mk 0 "" "" (Except.ok []) [])
      (ReqParse.parsed (some "")) (Or.inr rfl)).1,
    (C7_reject_empty_content (fun _ => "") (ToolEnv.mk 0 "" "" (Except.ok []) [])
      (ReqParse.parsed (some "")) (Or.inr rfl)).2.2.2.1⟩

/-- Claim C4, as stated, is false on the code: on the compiler-failure exit
path (non-zero exit code) nothing is unlinked — the temp `.tex` source was
created (and the tool left a `.log`), yet `filesRemoved` is empty, so the
scratch files remain on disk. -/
theorem C4_counterexample :
    TmpFile.tex ∈ (POST (fun _ => "") (ReqParse.parsed (some "x"))
        (ToolEnv.mk 1 "err" "" (Except.error "ENOENT") [TmpFile.log])).2.filesCreated
    ∧ (POST (fun _ => "") (ReqParse.parsed (some "x"))
        (ToolEnv.mk 1 "err" "" (Except.error "ENOENT") [TmpFile.log])).2.filesRemoved
      = [] := by
  decide

/-- Claim C4 (amended): the scratch files are removed only on the successful
exit path: when the tool exits 0 and the artifact is read, the handler
unlinks the temp source, the artifact, the log and the aux file (every file
that was created is removed — no residue); on compiler failure (non-zero
exit) and on an adapter-side exception (artifact read failure) no file is
removed at all. -/
theorem C4_cleanup_only_on_success (b64 : List Nat → String) (c : String)
    (env : ToolEnv) (hc : c ≠ "") :
    (∀ bytes, env.exitCode = 0 → env.readPdf = Except.ok bytes →
      (POST b64 (ReqParse.parsed (some c)) env).2.filesRemoved
        = [TmpFile.tex, TmpFile.pdf, TmpFile.log, TmpFile.aux]
      ∧ ∀ f ∈ (POST b64 (ReqParse.parsed (some c)) env).2.filesCreated,
          f ∈ (POST b64 (ReqParse.parsed (some c)) env).2.filesRemoved)
    ∧ (env.exitCode ≠ 0 →
      (POST b64 (ReqParse.parsed (some c)) env).2.filesRemoved = [])
    ∧ (∀ m, env.exitCode = 0 → env.readPdf = Except.error m →
      (POST b64 (ReqParse.parsed (some c)) env).2.filesRemoved = []) := by
  refine ⟨?_, ?_, ?_⟩
  · intro bytes h0 hr
    constructor
    · simp [POST, hc, h0, hr]
    · intro f _
      simp only [POST, if_neg hc, h0, hr]
      cases f <;> simp
  · intro h0
    simp [POST, hc, h0]
  · intro m h0 hr
    simp [POST, hc, h0, hr]

/-- Witness for `C4_cleanup_only_on_success`: on a concrete successful run
all four scratch files are unlinked. -/
theorem C4_cleanup_only_on_success_witness :
    ("x" ≠ "" ∧ (ToolEnv.mk 0 "" "" (Except.ok [7]) [TmpFile.log, TmpFile.aux]).exitCode = 0)
    ∧ (POST (fun _ => "Bw==") (ReqParse.parsed (some "x"))
        (ToolEnv.mk 0 "" "" (Except.ok [7]) [TmpFile.log, TmpFile.aux])).2.filesRemoved
      = [TmpFile.tex, TmpFile.pdf, TmpFile.log, TmpFile.aux] :=
  ⟨⟨by decide, rfl⟩,
    ((C4_cleanup_only_on_success (fun _ => "Bw==") "x"
        (ToolEnv.mk 0 "" "" (Except.ok [7]) [TmpFile.log, TmpFile.aux])
        (by decide)).1 [7] rfl rfl).1⟩

/-- Observable actions of one call to `compileLatex` in the document editor
(`part_005` lines 80–140): whether `saveCurrentDocument` was called, and the
`content` posted to `/api/compile` (`none` when no request was issued). -/
structure CompileTrace where
  saveCalled : Bool
  fetchBody : Option String
deriving DecidableEq, Repr

/-- `part_005: compileLatex`, with the outcome of `saveCurrentDocument`
abstracted as `saveResult` (`some savedContent` when the save succeeded and
returned the saved document, `none` when it failed and returned null).
Control flow from the source: empty content returns immediately; otherwise
the document is saved first; `if (!savedDoc) { setIsCompiling(false);
return; }` aborts without fetching; otherwise the request is issued with
`savedDoc.content`. -/
def compileLatexTrace (content : String) (saveResult : Option String) : CompileTrace :=
  if content = "" then ⟨false, none⟩
  else
    match saveResult with
    | none => ⟨true, none⟩
    | some savedContent => ⟨true, some savedContent⟩

/-- Claim C6, as stated, is false on the code: with non-empty content and a
failing save, `compileLatex` calls the save but then returns early — no
compile request is issued at all, so the save failure does prevent the
compile from proceeding. -/
theorem C6_counterexample :
    (compileLatexTrace "x" none).saveCalled = true
    ∧ (compileLatexTrace "x" none).fetchBody = none := by
  decide

/-- Claim C6 (amended): before every compile attempt (non-empty content) the
orchestrator calls the persistence save, but the save is required rather
than best-effort: when the save fails the compile is aborted (no request
issued), and when it succeeds the compile request carries the saved
content. -/
theorem C6_save_required (content : String) (saveResult : Option String)
    (hc : content ≠ "") :
    (compileLatexTrace content saveResult).saveCalled = true
    ∧ (saveResult = none → (compileLatexTrace content saveResult).fetchBody = none)
    ∧ (∀ s, saveResult = some s →
        (compileLatexTrace content saveResult).fetchBody = some s) := by
  refine ⟨?_, ?_, ?_⟩
  · cases saveResult <;> simp [compileLatexTrace, hc]
  · intro h
    subst h
    simp [compileLatexTrace, hc]
  · intro s h
    subst h
    simp [compileLatexTrace, hc]

/-- Witness for `C6_save_required`: concrete call with non-empty content and
a successful save issues the request with the saved content. -/
theorem C6_save_required_witness :
    ("x" ≠ "") ∧ (compileLatexTrace "x" (some "x")).fetchBody = some "x" :=
  ⟨by decide, (C6_save_required "x" (some "x") (by decide)).2.2 "x" rfl⟩

/-- A JSON value, as produced by `JSON.parse`. -/
inductive Json where
  | null
  | bool (b : Bool)
  | num (n : Int)
  | str (s : String)
  | arr (elems : List Json)
  | obj (fields : List (String × Json))

/-- `getDocuments` (`documentService.ts` lines 32–42), with `JSON.parse`
abstracted as `parse` (`none` when it throws — the exception is caught and
turned into `[]`) and the backing `localStorage` read as `stored` (`none`
for an absent key or a storage failure).  `if (!docsJson) return []` also
catches the empty string; `Array.isArray(parsed) ? parsed : []` keeps only
arrays. -/
def getDocuments (parse : String → Option Json) (stored : Option String) :
    List Json :=
  match stored with
  | none => []
  | some s =>
    if s = "" then []
    else
      match parse s with
      | none => []
      | some (Json.arr elems) => elems
      | some _ => []

/-- Claim C9: `getDocuments` is total — for every state of the backing store
it returns a list: the empty list when the key is absent, when the stored
value fails to parse, and when it parses to a non-array; and the stored
array when it parses to one. -/
theorem C9_getDocuments_total (parse : String → Option Json) :
    getDocuments parse none = []
    ∧ (∀ s, parse s = none → getDocuments parse (some s) = [])
    ∧ (∀ s j, parse s = some j → (∀ xs, j ≠ Json.arr xs) →
        getDocuments parse (some s) = [])
    ∧ (∀ s xs, s ≠ "" → parse s = some (Json.arr xs) →
        getDocuments parse (some s) = xs) := by
  refine ⟨rfl, ?_, ?_, ?_⟩
  · intro s hp
    by_cases hs : s = ""
    · simp [getDocuments, hs]
    · simp [getDocuments, hs, hp]
  · intro s j hp hj
    by_cases hs : s = ""
    · simp [getDocuments, hs]
    · cases j with
      | arr xs => exact absurd rfl (hj xs)
      | null => simp [getDocuments, hs, hp]
      | bool b => simp [getDocuments, hs, hp]
      | num n => simp [getDocuments, hs, hp]
      | str s2 => simp [getDocuments, hs, hp]
      | obj fields => simp [getDocuments, hs, hp]
  · intro s xs hs hp
    simp [getDocuments, hs, hp]

/-- Witness for `C9_getDocuments_total`: a concrete parse function returning
a non-array yields the empty list, and one returning an array yields its
elements. -/
theorem C9_getDocuments_total_witness :
    getDocuments (fun _ => some (Json.num 3)) (some "3") = []
    ∧ getDocuments (fun _ => some (Json.arr [Json.null])) (some "[null]") = [Json.null] :=
  ⟨(C9_getDocuments_total (fun _ => some (Json.num 3))).2.2.1 "3" (Json.num 3) rfl
      (fun xs h => Json.noConfusion h),
    (C9_getDocuments_total (fun _ => some (Json.arr [Json.null]))).2.2.2 "[null]"
      [Json.null] (by decide) rfl⟩
